import Mathlib

/-
Verification of the BookmarkCleaner core (src/BookmarkCleaner/src/{main,parser,scanner}.rs)
against its natural-language specification.

Rust strings are embedded as lists of Unicode scalar values (one Lean Char per
Rust char).  Byte-level operations of the source (str::find returning a byte
index, byte-range slicing) are modelled explicitly via the UTF-8 size of each
character, so that the byte-index arithmetic of the source is preserved; a
Rust slice operation that would panic is modelled as the panic case of an
explicit result type.
-/

namespace BookmarkCleaner

/-- A Rust string value: its sequence of Unicode scalar values. -/
abbrev RStr := List Char

/-- Turn a Lean string literal into the embedded Rust string. -/
def rstr (s : String) : RStr := s.data

/-- Number of bytes of the UTF-8 encoding of one character (Rust char::len_utf8). -/
def utf8Size (c : Char) : Nat :=
  if c.toNat < 0x80 then 1
  else if c.toNat < 0x800 then 2
  else if c.toNat < 0x10000 then 3
  else 4

/-- Byte length of a string (Rust str::len). -/
def utf8Len (s : RStr) : Nat := (s.map utf8Size).sum

/-- Rust char::is_whitespace: the Unicode White_Space property (a fixed list
of code points plus the range U+2000..U+200A). -/
def rust_is_whitespace (c : Char) : Bool :=
  let n := c.toNat
  if n ∈ [0x09, 0x0A, 0x0B, 0x0C, 0x0D, 0x20, 0x85, 0xA0, 0x1680,
          0x2028, 0x2029, 0x202F, 0x205F, 0x3000] then true
  else if 0x2000 ≤ n ∧ n ≤ 0x200A then true
  else false

/-- Rust char::to_lowercase for one character, as the sequence of characters
it yields.  Modelled exactly for the ASCII range (code points 65-90 map to the
code point 32 higher) and for the expanding special case U+0130 (LATIN CAPITAL
LETTER I WITH DOT ABOVE, which lowercases to i followed by U+0307 COMBINING
DOT ABOVE).  The rest of the Unicode table is NOT reproduced - it contains
further byte-length-changing mappings, for example U+212A KELVIN SIGN to the
one-byte k, U+212B, U+1E9E, U+2126, U+023A and U+023E - and those characters
are left unchanged here.  Accordingly, every theorem of this development that
quantifies over whole input strings carries a rust_is_ascii side condition,
restricting it to the domain on which this model agrees with Rust
byte-for-byte; non-ASCII text occurs only in concrete evaluations through the
U+0130 case, where the model is exact. -/
def char_to_lowercase (c : Char) : RStr :=
  if 65 ≤ c.toNat ∧ c.toNat ≤ 90 then [Char.ofNat (c.toNat + 32)]
  else if c.toNat = 0x130 then [Char.ofNat 0x69, Char.ofNat 0x307]
  else [c]

/-- Rust str::to_lowercase: concatenation of the per-character lowercase. -/
def rust_to_lowercase (s : RStr) : RStr :=
  (s.map char_to_lowercase).flatten

/-- Rust str::trim: strip Unicode whitespace from both ends. -/
def rust_trim (s : RStr) : RStr :=
  ((s.dropWhile rust_is_whitespace).reverse.dropWhile rust_is_whitespace).reverse

/-- Rust str::is_ascii: every character is below 0x80.  On such strings the
embedding of every text operation used here is byte-exact (in particular
char_to_lowercase, whose non-ASCII part is a partial model). -/
def rust_is_ascii (s : RStr) : Bool := s.all (fun c => c.toNat < 128)

/-- Worker for rust_find: scan the haystack left to right, keeping the byte
offset of the current position, and report the byte offset of the first
position where the pattern is a prefix of the remainder.  Since the lead byte
of a UTF-8 character is never a continuation byte, every byte-level occurrence
of a valid pattern starts on a character boundary, so this character-level scan
agrees with the byte-level scan of Rust str::find. -/
def find_bytes_from (pat : RStr) : RStr → Nat → Option Nat
  | [], ofs => if pat.isPrefixOf [] then some ofs else none
  | c :: cs, ofs =>
    if pat.isPrefixOf (c :: cs) then some ofs
    else find_bytes_from pat cs (ofs + utf8Size c)

/-- Rust str::find(pat): byte index of the first occurrence of pat, if any. -/
def rust_find (hay pat : RStr) : Option Nat :=
  find_bytes_from pat hay 0

/-- Rust str::contains(pat) for string patterns. -/
def rust_contains (hay pat : RStr) : Bool :=
  (rust_find hay pat).isSome

/-- Rust byte slicing s[i..]: walk characters, consuming i bytes.  Returns none
exactly when Rust would panic: the index exceeds the byte length, or falls
inside the encoding of a character (not on a character boundary). -/
def byte_slice_from : RStr → Nat → Option RStr
  | s, 0 => some s
  | [], _ + 1 => none
  | c :: cs, i + 1 =>
    if utf8Size c ≤ i + 1 then byte_slice_from cs (i + 1 - utf8Size c) else none

/-- Worker for rust_replace with explicit fuel (the length of the remaining
input suffices because the pattern is nonempty at every call site, so every
step consumes at least one character). -/
def replace_go : Nat → RStr → RStr → RStr → RStr
  | 0, s, _, _ => s
  | fuel + 1, s, pat, rep =>
    match s with
    | [] => []
    | c :: cs =>
      if pat ≠ [] ∧ pat.isPrefixOf s then
        rep ++ replace_go fuel (s.drop pat.length) pat rep
      else
        c :: replace_go fuel cs pat rep

/-- Rust str::replace(pat, rep): replace every non-overlapping occurrence of
pat, scanning left to right.  (Model valid for nonempty patterns; every call
site of the source passes a nonempty literal pattern.) -/
def rust_replace (s pat rep : RStr) : RStr :=
  replace_go s.length s pat rep

/-- Split a string at every occurrence of a separator character (Rust
str::split(sep) semantics: the result always has one segment more than the
number of separators, empty segments included). -/
def splitOnChar (sep : Char) : RStr → List RStr
  | [] => [[]]
  | c :: cs =>
    match splitOnChar sep cs with
    | [] => [[]]
    | seg :: rest => if c = sep then [] :: seg :: rest else (c :: seg) :: rest

/-- Strip one trailing carriage return, if present. -/
def strip_trailing_cr (s : RStr) : RStr :=
  if s.getLast? = some '\r' then s.dropLast else s

/-- Rust str::lines(): split at line feeds; a segment that was terminated by a
line feed additionally loses one trailing carriage return; a final empty
segment (produced by a trailing line feed) is not a line; the empty string has
no lines.  The final segment, when nonempty, is kept verbatim (a lone trailing
carriage return is not stripped, matching the source semantics where the
carriage return is stripped only below a line feed). -/
def rustLines (s : RStr) : List RStr :=
  if s = [] then []
  else
    let segs := splitOnChar '\n' s
    let body := segs.dropLast.map strip_trailing_cr
    match segs.getLast? with
    | some [] => body
    | some lastSeg => body ++ [lastSeg]
    | none => body

/-- Rust Vec::join(sep) for sep = a single line feed, as used by the rewriter. -/
def joinLF : List RStr → RStr
  | [] => []
  | [l] => l
  | l :: ls => l ++ '\n' :: joinLF ls

/-- Result of running a piece of Rust code that may panic. -/
inductive PResult (α : Type) where
  | panic (msg : RStr)
  | ok (val : α)
deriving DecidableEq

/-- True when the computation did not panic. -/
def PResult.isOk {α : Type} : PResult α → Bool
  | .panic _ => false
  | .ok _ => true

/-- Embedding of extract_href (src/BookmarkCleaner/src/main.rs, lines 271-307).
The source lowercases the line, looks for the byte index of "href=" in the
LOWERCASED copy, and then byte-slices the ORIGINAL line at idx + 5; that slice
is modelled by byte_slice_from and is the panic site when the lowercased copy
and the original differ in byte layout.  After the slice: skip whitespace (the
while loop over chars.next, equivalent to dropWhile, returning None when the
characters run out); a quote character starts a quoted value read up to the
matching quote; otherwise the first character is taken unconditionally and the
rest is read until whitespace or a closing angle bracket. -/
def extract_href (line : RStr) : PResult (Option RStr) :=
  let lower := rust_to_lowercase line
  match rust_find lower (rstr "href=") with
  | some idx =>
    match byte_slice_from line (idx + 5) with
    | none => .panic (rstr "byte index out of bounds or not on a char boundary")
    | some rest =>
      match rest.dropWhile rust_is_whitespace with
      | [] => .ok none
      | first :: rest2 =>
        if first == '"' || first == '\'' then
          .ok (some (rest2.takeWhile (fun c => !(c == first))))
        else
          .ok (some (first :: rest2.takeWhile
            (fun c => !rust_is_whitespace c && !(c == '>'))))
  | none => .ok none

/-- One iteration of the rewrite loop of process_bookmarks
(src/BookmarkCleaner/src/main.rs, lines 239-264), for a single line: lines
whose lowercased trimmed text contains the link-opening token have their href
extracted from the trimmed text; an extracted URL in the removal set drops the
line (ok none); an extracted URL with an entry in the upgrade map emits the
line with the URL text replaced (Rust str::replace); every other case emits
the line unchanged.  A panic of extract_href propagates. -/
def processLine (line : RStr) (urls_to_remove : List RStr)
    (upgraded : List (RStr × RStr)) : PResult (Option RStr) :=
  let trimmed := rust_trim line
  let lower_trimmed := rust_to_lowercase trimmed
  if rust_contains lower_trimmed (rstr "<a") then
    match extract_href trimmed with
    | .panic m => .panic m
    | .ok (some url) =>
      if urls_to_remove.contains url then .ok none
      else
        match List.lookup url upgraded with
        | some new_url => .ok (some (rust_replace line url new_url))
        | none => .ok (some line)
    | .ok none => .ok (some line)
  else .ok (some line)

/-- The rewrite loop over all lines, collecting the surviving output lines in
order; a panic of any line propagates. -/
def processLines (ls : List RStr) (urls_to_remove : List RStr)
    (upgraded : List (RStr × RStr)) : PResult (List RStr) :=
  match ls with
  | [] => .ok []
  | l :: rest =>
    match processLine l urls_to_remove upgraded with
    | .panic m => .panic m
    | .ok none => processLines rest urls_to_remove upgraded
    | .ok (some out) =>
      match processLines rest urls_to_remove upgraded with
      | .panic m => .panic m
      | .ok outs => .ok (out :: outs)

/-- Embedding of process_bookmarks (src/BookmarkCleaner/src/main.rs, lines
226-268), parameterized directly by the removal set of URL strings and the
upgrade map, which the source builds from the interactive app state in its
first loop (lines 228-235) before the rewrite proper: iterate over
original_html.lines(), process each line, and join the surviving lines with a
line feed. -/
def process_bookmarks (original_html : RStr) (urls_to_remove : List RStr)
    (upgraded : List (RStr × RStr)) : PResult RStr :=
  match processLines (rustLines original_html) urls_to_remove upgraded with
  | .panic m => .panic m
  | .ok new_lines => .ok (joinLF new_lines)

example : extract_href (rstr "<DT><A HREF=\"http://x.com/\">X</A>") =
    .ok (some (rstr "http://x.com/")) := by decide

example : extract_href (rstr "<a href=  go>x") = .ok (some (rstr "go")) := by decide

example : extract_href (rstr "<a href =\"u\">") = .ok none := by decide

example : extract_href (rstr "İİhref=x") =
    .panic (rstr "byte index out of bounds or not on a char boundary") := by decide

example : process_bookmarks (rstr "a\r\nb\n") [] [] = .ok (rstr "a\nb") := by decide

example : rust_replace (rstr "ababa") (rstr "aba") (rstr "c") = rstr "cba" := by decide

/-! ### Parser exclusion policy (src/BookmarkCleaner/src/parser.rs) -/

/-- Rust str::parse for u8 (as used on the second dotted octet of a host):
an optional leading plus sign, then one or more ASCII digits; the value must
fit in a u8, otherwise the parse errors (overflow). -/
def parse_u8 (s : RStr) : Option Nat :=
  let digits := match s with
    | '+' :: rest => rest
    | _ => s
  if digits = [] then none
  else if digits.all Char.isDigit then
    let v := digits.foldl (fun acc c => acc * 10 + (c.toNat - '0'.toNat)) 0
    if v ≤ 255 then some v else none
  else none

/-- The local-address test of should_skip (src/BookmarkCleaner/src/parser.rs,
lines 135-155), applied to the host string of a successfully parsed URL:
exact hosts localhost and 127.0.0.1, prefixes 192.168. and 10., hosts under
172. whose second dotted octet parses as a u8 in 16..=31, and hosts ending in
.local. -/
def host_is_local (host : RStr) : Bool :=
  if host == rstr "localhost" || host == rstr "127.0.0.1"
      || (rstr "192.168.").isPrefixOf host || (rstr "10.").isPrefixOf host then
    true
  else
    let by172 :=
      if (rstr "172.").isPrefixOf host then
        let parts := splitOnChar '.' host
        if parts.length ≥ 2 then
          match parse_u8 (parts.getD 1 []) with
          | some octet => decide (16 ≤ octet ∧ octet ≤ 31)
          | none => false
        else false
      else false
    if by172 then true
    else if (rstr ".local").isSuffixOf host then true
    else false

/-- Embedding of Parser::should_skip (src/BookmarkCleaner/src/parser.rs, lines
124-160).  The exclude_folders and ignore_local fields of the Parser struct
are passed as the first two arguments.  The source calls Url::parse (the
external url crate) and reads host_str(); that external parse is the
url_host argument: none models a parse failure, some none a URL without a
host, some (some h) a URL whose host string is h.  A folder-path segment
equal to an excluded folder name skips; otherwise, with ignore_local set, a
local host string skips; everything else does not skip. -/
def should_skip (exclude_folders : List RStr) (ignore_local : Bool)
    (url_host : Option (Option RStr)) (folder_path : List RStr) : Bool :=
  if exclude_folders.any (fun excluded => folder_path.contains excluded) then true
  else if ignore_local then
    match url_host with
    | some (some host) => host_is_local host
    | _ => false
  else false

example : host_is_local (rstr "172.016.0.1") = true := by decide
example : host_is_local (rstr "172.32.0.1") = false := by decide
example : host_is_local (rstr "my-nas.local") = true := by decide

/-! ### Link scanner (src/BookmarkCleaner/src/scanner.rs) -/

/-- The scanner status of one link (src/BookmarkCleaner/src/scanner.rs,
lines 8-13). -/
inductive LinkStatus where
  | Ok
  | Dead (reason : RStr)
  | Upgraded (newUrl : RStr)
deriving DecidableEq

/-- A transport-level request failure (a reqwest error), carrying the text its
Display implementation renders.  The four variants record which of the
is_timeout / is_connect / is_redirect predicates of the source hold. -/
inductive ReqError where
  | timeout (msg : RStr)
  | connect (msg : RStr)
  | redirect (msg : RStr)
  | other (msg : RStr)
deriving DecidableEq

def ReqError.is_timeout : ReqError → Bool
  | .timeout _ => true
  | _ => false

def ReqError.is_connect : ReqError → Bool
  | .connect _ => true
  | _ => false

def ReqError.is_redirect : ReqError → Bool
  | .redirect _ => true
  | _ => false

/-- The reqwest error Display text (e.to_string() in the source). -/
def ReqError.to_string : ReqError → RStr
  | .timeout m | .connect m | .redirect m | .other m => m

/-- Outcome of one GET attempt: an HTTP response with its status code, or a
transport failure. -/
inductive ReqResult where
  | resp (status : Nat)
  | err (e : ReqError)
deriving DecidableEq

/-- An attempt outcome that the retry loop of check_link retries: a transport
failure that is a timeout or a connect failure. -/
def ReqResult.is_retryable_err : ReqResult → Bool
  | .err e => e.is_timeout || e.is_connect
  | .resp _ => false

/-- The Display text of an http StatusCode (format argument of the Dead reason
in the source): the code followed by its canonical reason phrase, rendered for
the two codes that reach that formatting site. -/
def statusDisplay (s : Nat) : RStr :=
  rstr (toString s) ++
    (if s = 404 then rstr " Not Found" else if s = 410 then rstr " Gone" else rstr "")

/-- Classification of an HTTP response by check_link
(src/BookmarkCleaner/src/scanner.rs, lines 95-105): a success status (2xx) is
Ok, 404 and 410 are Dead with the formatted reason, and every other status is
Ok. -/
def resp_classify (s : Nat) : LinkStatus :=
  if 200 ≤ s ∧ s ≤ 299 then .Ok
  else if s = 404 ∨ s = 410 then .Dead (statusDisplay s ++ rstr " Not Found/Gone")
  else .Ok

/-- Classification of a transport failure once retries are exhausted
(src/BookmarkCleaner/src/scanner.rs, lines 108-118): the if chain over
is_timeout, is_connect, is_redirect, with the raw Display text as the final
fallback. -/
def exhausted_classify (e : ReqError) : LinkStatus :=
  if e.is_timeout then .Dead (rstr "Timeout")
  else if e.is_connect then .Dead (rstr "DNS/Connection Error")
  else if e.is_redirect then .Dead (rstr "Redirect Loop")
  else .Dead e.to_string

/-- The retry loop of check_link (src/BookmarkCleaner/src/scanner.rs, lines
91-132).  att gives the outcome of each successive GET attempt (attempt
numbers start at 0).  The loop counter is carried as remaining =
max_retries - attempts, so the source guard attempts >= max_retries is
remaining = 0; attempts is also carried for the attempt oracle.  The second
component of the result counts the GET attempts performed, instrumenting the
loop for the resource-bound claims (the source returns only the status).
On a response the status is classified; on a failure with retries exhausted
the failure is classified; otherwise a timeout or connect failure sleeps and
retries, and any other failure returns the raw error text immediately. -/
def check_link_go (att : Nat → ReqResult) : Nat → Nat → LinkStatus × Nat
  | 0, attempts =>
    (match att attempts with
     | .resp s => resp_classify s
     | .err e => exhausted_classify e,
     attempts + 1)
  | rem + 1, attempts =>
    match att attempts with
    | .resp s => (resp_classify s, attempts + 1)
    | .err e =>
      if e.is_timeout || e.is_connect then check_link_go att rem (attempts + 1)
      else (.Dead e.to_string, attempts + 1)

/-- Embedding of check_link (src/BookmarkCleaner/src/scanner.rs, lines 85-133).
The network is the oracle net: for each URL, the outcome of each successive
GET attempt on it.  A URL that does not start with "http" is Ok immediately
with zero attempts (the source early return); otherwise the retry loop runs
with the full budget.  The function is total: it always terminates, in at
most max_retries + 1 attempts. -/
def check_link (net : RStr → Nat → ReqResult) (url : RStr) (max_retries : Nat) :
    LinkStatus × Nat :=
  if (rstr "http").isPrefixOf url then check_link_go (net url) max_retries 0
  else (.Ok, 0)

/-- Embedding of check_link_smart (src/BookmarkCleaner/src/scanner.rs, lines
66-83): probe the original URL; if the result is Dead and the URL starts with
"http://", probe the URL with "http://" replaced by "https://" (Rust
str::replace, hence every occurrence) under the same retry budget, and return
Upgraded with the rewritten URL if that second probe is Ok; in every other
case return the first result. -/
def check_link_smart (net : RStr → Nat → ReqResult) (url : RStr)
    (retries : Nat) : LinkStatus :=
  let status := (check_link net url retries).1
  match status with
  | .Dead reason =>
    if (rstr "http://").isPrefixOf url then
      let https_url := rust_replace url (rstr "http://") (rstr "https://")
      match (check_link net https_url retries).1 with
      | .Ok => .Upgraded https_url
      | _ => .Dead reason
    else .Dead reason
  | s => s

/-- A network where every attempt on every URL has the same outcome. -/
def constNet (r : ReqResult) : RStr → Nat → ReqResult := fun _ _ => r

example : check_link (constNet (.err (.connect (rstr "x")))) (rstr "http://a") 2 =
    (.Dead (rstr "DNS/Connection Error"), 3) := by decide

example : check_link (constNet (.resp 404)) (rstr "http://a") 3 =
    (.Dead (rstr "404 Not Found Not Found/Gone"), 1) := by decide

example : check_link (constNet (.resp 503)) (rstr "http://a") 3 = (.Ok, 1) := by decide

example :
    check_link_smart
      (fun u _ => if u = rstr "http://a?u=http://b" then .err (.connect (rstr "x"))
                  else .resp 200)
      (rstr "http://a?u=http://b") 0 =
    .Upgraded (rstr "https://a?u=https://b") := by decide

/-! ### Helper lemmas -/

/-- A line whose href extraction does not panic survives the rewrite loop
unchanged when the removal set and the upgrade map are empty. -/
lemma processLine_no_edits (l : RStr)
    (h : (extract_href (rust_trim l)).isOk = true) :
    processLine l [] [] = PResult.ok (some l) := by
  by_cases hc : rust_contains (rust_to_lowercase (rust_trim l)) (rstr "<a") = true
  · cases hx : extract_href (rust_trim l) with
    | panic m => rw [hx] at h; simp [PResult.isOk] at h
    | ok v =>
      cases v with
      | none => simp [processLine, hc, hx]
      | some url => simp [processLine, hc, hx, List.lookup]
  · simp [processLine, hc]

/-- The rewrite loop with empty removal set and empty upgrade map reproduces
every line, provided no extraction panics. -/
lemma processLines_no_edits (ls : List RStr)
    (h : ∀ l ∈ ls, (extract_href (rust_trim l)).isOk = true) :
    processLines ls [] [] = PResult.ok ls := by
  induction ls with
  | nil => rfl
  | cons l rest ih =>
    have hl := processLine_no_edits l (h l (by simp))
    have hr := ih (fun x hx => h x (by simp [hx]))
    simp [processLines, hl, hr]

/-- An ASCII character occupies one byte. -/
lemma utf8Size_eq_one (c : Char) (h : c.toNat < 128) : utf8Size c = 1 := by
  unfold utf8Size
  rw [if_pos h]

/-- Round trip of Char.ofNat below the surrogate range. -/
lemma toNat_char_ofNat (n : Nat) (h : n < 55296) : (Char.ofNat n).toNat = n := by
  have hv : n.isValidChar := Or.inl h
  simp [Char.ofNat, hv, Char.toNat, Char.ofNatAux, UInt32.toNat]

/-- Lowercasing an ASCII character yields a single ASCII character. -/
lemma char_to_lowercase_ascii (c : Char) (h : c.toNat < 128) :
    ∃ d, char_to_lowercase c = [d] ∧ d.toNat < 128 := by
  unfold char_to_lowercase
  by_cases h1 : 65 ≤ c.toNat ∧ c.toNat ≤ 90
  · refine ⟨Char.ofNat (c.toNat + 32), by rw [if_pos h1], ?_⟩
    rw [toNat_char_ofNat (c.toNat + 32) (by omega)]
    omega
  · have h2 : ¬ c.toNat = 0x130 := by omega
    exact ⟨c, by rw [if_neg h1, if_neg h2], h⟩

/-- Unfolding of rust_to_lowercase on a cons cell. -/
lemma rust_to_lowercase_cons (c : Char) (cs : RStr) :
    rust_to_lowercase (c :: cs) = char_to_lowercase c ++ rust_to_lowercase cs := by
  simp [rust_to_lowercase]

/-- Lowercasing an ASCII string preserves its length and its ASCII-ness. -/
lemma rust_to_lowercase_ascii (s : RStr) (h : rust_is_ascii s = true) :
    (rust_to_lowercase s).length = s.length ∧
      rust_is_ascii (rust_to_lowercase s) = true := by
  induction s with
  | nil => simp [rust_to_lowercase, rust_is_ascii]
  | cons c cs ih =>
    rw [rust_is_ascii, List.all_cons, Bool.and_eq_true] at h
    obtain ⟨hc, hcs⟩ := h
    obtain ⟨d, hd, hd2⟩ := char_to_lowercase_ascii c (of_decide_eq_true hc)
    obtain ⟨ih1, ih2⟩ := ih hcs
    rw [rust_to_lowercase_cons, hd]
    constructor
    · simp [ih1]
    · rw [rust_is_ascii] at ih2 ⊢
      simp [ih2, hd2]

/-- Unfolding of utf8Len on a cons cell. -/
lemma utf8Len_cons (c : Char) (cs : RStr) :
    utf8Len (c :: cs) = utf8Size c + utf8Len cs := by
  simp [utf8Len]

/-- The byte length of an ASCII string is its character count. -/
lemma utf8Len_of_ascii (s : RStr) (h : rust_is_ascii s = true) :
    utf8Len s = s.length := by
  induction s with
  | nil => simp [utf8Len]
  | cons c cs ih =>
    rw [rust_is_ascii, List.all_cons, Bool.and_eq_true] at h
    obtain ⟨hc, hcs⟩ := h
    rw [utf8Len_cons, utf8Size_eq_one c (of_decide_eq_true hc), ih hcs]
    simp [Nat.add_comm]

/-- A byte-prefix is no longer, in bytes, than the whole. -/
lemma isPrefixOf_utf8Len_le (l : RStr) :
    ∀ m, l.isPrefixOf m = true → utf8Len l ≤ utf8Len m := by
  induction l with
  | nil => intro m _; simp [utf8Len]
  | cons a as ih =>
    intro m h
    cases m with
    | nil => simp [List.isPrefixOf] at h
    | cons b bs =>
      simp only [List.isPrefixOf, Bool.and_eq_true, beq_iff_eq] at h
      obtain ⟨hab, htl⟩ := h
      rw [utf8Len_cons, utf8Len_cons, hab]
      have := ih bs htl
      omega

/-- The byte index reported by the find scan leaves room for the whole pattern
inside the haystack. -/
lemma find_bytes_from_bound (pat : RStr) :
    ∀ (s : RStr) (ofs idx : Nat), find_bytes_from pat s ofs = some idx →
      idx + utf8Len pat ≤ ofs + utf8Len s := by
  intro s
  induction s with
  | nil =>
    intro ofs idx h
    by_cases hp : pat.isPrefixOf [] = true
    · rw [find_bytes_from, if_pos hp] at h
      have h2 := isPrefixOf_utf8Len_le pat [] hp
      have h0 : utf8Len ([] : RStr) = 0 := rfl
      simp at h
      omega
    · rw [find_bytes_from, if_neg hp] at h
      simp at h
  | cons c cs ih =>
    intro ofs idx h
    by_cases hp : pat.isPrefixOf (c :: cs) = true
    · rw [find_bytes_from, if_pos hp] at h
      have h2 := isPrefixOf_utf8Len_le pat (c :: cs) hp
      rw [utf8Len_cons] at h2 ⊢
      simp at h
      omega
    · rw [find_bytes_from, if_neg hp] at h
      have h2 := ih (ofs + utf8Size c) idx h
      rw [utf8Len_cons]
      omega

/-- Byte slicing an ASCII string at an in-range index succeeds (the panic case
is unreachable): every character is one byte, so every index in range is a
character boundary. -/
lemma byte_slice_from_of_ascii (s : RStr) :
    ∀ i, rust_is_ascii s = true → i ≤ s.length →
      byte_slice_from s i = some (s.drop i) := by
  induction s with
  | nil =>
    intro i _ hi
    have h0 : i = 0 := by simpa using hi
    subst h0
    rfl
  | cons c cs ih =>
    intro i h hi
    rw [rust_is_ascii, List.all_cons, Bool.and_eq_true] at h
    obtain ⟨hc, hcs⟩ := h
    cases i with
    | zero => rfl
    | succ j =>
      have h1 : utf8Size c = 1 := utf8Size_eq_one c (of_decide_eq_true hc)
      rw [byte_slice_from, h1, if_pos (by omega)]
      have hj : j ≤ cs.length := by simpa using hi
      simp [ih j hcs hj]

/-- On an ASCII line, extract_href cannot panic: the byte index found in the
lowercased copy, plus the pattern length, stays within the byte length of the
lowercased copy, which equals the byte length of the original line. -/
lemma extract_href_ascii_isOk (line : RStr) (h : rust_is_ascii line = true) :
    (extract_href line).isOk = true := by
  cases hf : rust_find (rust_to_lowercase line) (rstr "href=") with
  | none => simp [extract_href, hf, PResult.isOk]
  | some idx =>
    obtain ⟨hlen, hasc⟩ := rust_to_lowercase_ascii line h
    have hb := find_bytes_from_bound (rstr "href=") (rust_to_lowercase line) 0 idx
      (by simpa [rust_find] using hf)
    have h5 : utf8Len (rstr "href=") = 5 := by decide
    have hlow : utf8Len (rust_to_lowercase line) = (rust_to_lowercase line).length :=
      utf8Len_of_ascii _ hasc
    have hbound : idx + 5 ≤ line.length := by omega
    have hs := byte_slice_from_of_ascii line (idx + 5) h hbound
    simp only [extract_href, hf, hs]
    cases hdw : (line.drop (idx + 5)).dropWhile rust_is_whitespace with
    | nil => simp [PResult.isOk]
    | cons first rest2 => by_cases hq : (first == '"' || first == '\'') = true
                          <;> simp [hq, PResult.isOk]

/-- Stripping a trailing carriage return only removes characters. -/
lemma strip_trailing_cr_subset (s : RStr) : ∀ c ∈ strip_trailing_cr s, c ∈ s := by
  intro c hc
  unfold strip_trailing_cr at hc
  split at hc
  · exact (List.dropLast_sublist s).subset hc
  · exact hc

/-- Every character of every segment of a character split occurs in the
original string. -/
lemma mem_splitOnChar (sep : Char) (s : RStr) :
    ∀ l ∈ splitOnChar sep s, ∀ c ∈ l, c ∈ s := by
  induction s with
  | nil =>
    intro l hl c hc
    simp [splitOnChar] at hl
    subst hl
    simp at hc
  | cons a as ih =>
    intro l hl c hc
    cases hsp : splitOnChar sep as with
    | nil =>
      rw [splitOnChar, hsp] at hl
      simp at hl
      subst hl
      simp at hc
    | cons seg rest =>
      have hred : splitOnChar sep (a :: as) =
          if a = sep then [] :: seg :: rest else (a :: seg) :: rest := by
        rw [splitOnChar, hsp]
      rw [hred] at hl
      by_cases ha : a = sep
      · rw [if_pos ha, List.mem_cons] at hl
        rcases hl with hl | hl
        · subst hl; simp at hc
        · exact List.mem_cons_of_mem a (ih l (by rw [hsp]; exact hl) c hc)
      · rw [if_neg ha, List.mem_cons] at hl
        rcases hl with hl | hl
        · subst hl
          rcases List.mem_cons.mp hc with hc | hc
          · rw [hc]; exact List.mem_cons_self a as
          · exact List.mem_cons_of_mem a
              (ih seg (by rw [hsp]; exact List.mem_cons_self seg rest) c hc)
        · exact List.mem_cons_of_mem a
            (ih l (by rw [hsp]; exact List.mem_cons_of_mem seg hl) c hc)

/-- Every line produced by rustLines draws its characters from one segment of
the line-feed split of the text. -/
lemma mem_rustLines_cases (text l : RStr) (hl : l ∈ rustLines text) :
    ∃ seg ∈ splitOnChar '\n' text, ∀ c ∈ l, c ∈ seg := by
  unfold rustLines at hl
  by_cases ht : text = []
  · rw [if_pos ht] at hl
    simp at hl
  · rw [if_neg ht] at hl
    simp only [] at hl
    have hbody : ∀ m ∈ (splitOnChar '\n' text).dropLast.map strip_trailing_cr,
        ∃ seg ∈ splitOnChar '\n' text, ∀ c ∈ m, c ∈ seg := by
      intro m hm
      obtain ⟨seg, hseg, hms⟩ := List.mem_map.mp hm
      exact ⟨seg, (List.dropLast_sublist _).subset hseg,
        fun c hc => strip_trailing_cr_subset seg c (hms ▸ hc)⟩
    rcases hq : (splitOnChar '\n' text).getLast? with _ | lseg
    · rw [hq] at hl
      simp only [] at hl
      exact hbody l hl
    · cases lseg with
      | nil =>
        rw [hq] at hl
        simp only [] at hl
        exact hbody l hl
      | cons x xs =>
        rw [hq] at hl
        simp only [] at hl
        rcases List.mem_append.mp hl with hl2 | hl2
        · exact hbody l hl2
        · have hll : l = x :: xs := by simpa using hl2
          subst hll
          obtain ⟨hne, heq⟩ := List.mem_getLast?_eq_getLast (Option.mem_def.mpr hq)
          exact ⟨x :: xs, heq ▸ List.getLast_mem hne, fun c hc => hc⟩

/-- Trimming only removes characters. -/
lemma rust_trim_subset (s : RStr) : ∀ c ∈ rust_trim s, c ∈ s := by
  intro c hc
  unfold rust_trim at hc
  rw [List.mem_reverse] at hc
  have h1 := (List.dropWhile_sublist _).subset hc
  rw [List.mem_reverse] at h1
  exact (List.dropWhile_sublist _).subset h1

/-- ASCII-ness is inherited by anything drawing its characters from an ASCII
string. -/
lemma rust_is_ascii_of_subset (s l : RStr) (h : rust_is_ascii s = true)
    (hsub : ∀ c ∈ l, c ∈ s) : rust_is_ascii l = true := by
  rw [rust_is_ascii, List.all_eq_true] at h ⊢
  exact fun c hc => h c (hsub c hc)

/-- Every line of an ASCII text is ASCII. -/
lemma rustLines_ascii (text l : RStr) (h : rust_is_ascii text = true)
    (hl : l ∈ rustLines text) : rust_is_ascii l = true := by
  obtain ⟨seg, hseg, hsub⟩ := mem_rustLines_cases text l hl
  exact rust_is_ascii_of_subset text l h
    (fun c hc => mem_splitOnChar '\n' text seg hseg c (hsub c hc))

/-! ### Claim theorems -/

/-- C1: the parse-time href extraction and the rewrite-time extraction are not
byte-identical on every link line.  The parser (scraper / html5ever, an HTML
tokenizer that decodes character references inside attribute values) extracts
the DECODED href, so the upgrade-map key for this line is the string with a
plain ampersand; the rewriter by contrast extracts the RAW attribute text with
the character reference undecoded, as this theorem evaluates, and the two
strings differ byte-wise, so the upgrade-map lookup for this line misses. -/
theorem C1_extraction_divergence :
    extract_href (rstr "<DT><A HREF=\"http://x.com/?a=1&amp;b=2\">X</A>") =
      PResult.ok (some (rstr "http://x.com/?a=1&amp;b=2")) ∧
    rstr "http://x.com/?a=1&amp;b=2" ≠ rstr "http://x.com/?a=1&b=2" := by
  decide

/-- C10: extract_href is not total.  On this line, the two U+0130 characters
(2 UTF-8 bytes each) lowercase to i followed by a combining dot (3 bytes
each), so the byte index of href= found in the LOWERCASED copy is 6, and the
source then slices the ORIGINAL 10-byte line at byte 6 + 5 = 11, which is out
of bounds: the Rust byte slice panics instead of returning Some or None. -/
theorem C10_extract_href_panics :
    extract_href (rstr "İİhref=x") =
      PResult.panic (rstr "byte index out of bounds or not on a char boundary") := by
  decide

/-- C2 counterexample: rewrite with empty removal set and empty upgrade map is
not the byte-for-byte identity, and the output is not rejoined with the
original separator: a CRLF line ending is turned into a bare LF and a trailing
newline is dropped. -/
theorem C2_not_identity :
    process_bookmarks (rstr "a\r\nb\n") [] [] = PResult.ok (rstr "a\nb") ∧
    rstr "a\nb" ≠ rstr "a\r\nb\n" := by
  decide

/-- C2 (amended): for every ASCII text - the domain on which the embedding of
the text operations is byte-exact, and on which the href extraction provably
cannot panic (extract_href_ascii_isOk) - the rewriter with empty removal set
and empty upgrade map outputs exactly the lines of the text (Rust str::lines)
rejoined with a single LF, the fixed separator of the rewriter, not the
original separator of the text; consequently the rewrite is the identity
precisely on texts that this LF rejoin reproduces (LF-separated text with no
trailing newline). -/
theorem C2_rewrite_identity_amended (text : RStr)
    (hascii : rust_is_ascii text = true) :
    process_bookmarks text [] [] = PResult.ok (joinLF (rustLines text)) ∧
    (joinLF (rustLines text) = text →
      process_bookmarks text [] [] = PResult.ok text) := by
  have hsafe : ∀ l ∈ rustLines text, (extract_href (rust_trim l)).isOk = true :=
    fun l hl => extract_href_ascii_isOk (rust_trim l)
      (rust_is_ascii_of_subset l (rust_trim l)
        (rustLines_ascii text l hascii hl) (rust_trim_subset l))
  have h := processLines_no_edits (rustLines text) hsafe
  refine ⟨?_, fun he => ?_⟩
  · simp [process_bookmarks, h]
  · simp [process_bookmarks, h, he]

/-- C2 witness: the amended identity instantiated on a concrete two-line
LF-separated text. -/
theorem C2_witness :
    process_bookmarks (rstr "<H1>Bookmarks</H1>\n<DT><A HREF=\"http://x\">X</A>") [] [] =
      PResult.ok (rstr "<H1>Bookmarks</H1>\n<DT><A HREF=\"http://x\">X</A>") :=
  (C2_rewrite_identity_amended
    (rstr "<H1>Bookmarks</H1>\n<DT><A HREF=\"http://x\">X</A>")
    (by decide)).2 (by decide)

/-- C6 counterexample: on a line containing the old URL twice (once as href
value, once as anchor text), the rewriter replaces BOTH occurrences, not only
the first: the emitted line differs from the line with only the first
occurrence replaced. -/
theorem C6_replaces_every_occurrence :
    process_bookmarks (rstr "<A HREF=\"http://x\">http://x</A>")
        [] [(rstr "http://x", rstr "https://x")] =
      PResult.ok (rstr "<A HREF=\"https://x\">https://x</A>") ∧
    rstr "<A HREF=\"https://x\">https://x</A>" ≠
      rstr "<A HREF=\"https://x\">http://x</A>" := by
  decide

/-- C6 (amended): for every ASCII line (the domain on which the embedding of
the text operations is byte-exact) in the link branch whose extracted URL is
not in the removal set and has an entry in the upgrade map, the rewriter
emits the line with EVERY non-overlapping occurrence of the old URL text
literally replaced by the new URL text (Rust str::replace); on a line
containing its href exactly once, this is one replacement. -/
theorem C6_upgrade_replacement (line url new_url : RStr)
    (urls_to_remove : List RStr) (upgraded : List (RStr × RStr))
    (_hascii : rust_is_ascii line = true)
    (hc : rust_contains (rust_to_lowercase (rust_trim line)) (rstr "<a") = true)
    (hx : extract_href (rust_trim line) = PResult.ok (some url))
    (hr : urls_to_remove.contains url = false)
    (hu : List.lookup url upgraded = some new_url) :
    processLine line urls_to_remove upgraded =
      PResult.ok (some (rust_replace line url new_url)) := by
  simp [processLine, hc, hx, hr, hu]
  simpa using hr

/-- C6 witness: the amended replacement rule instantiated on a concrete link
line with a one-entry upgrade map. -/
theorem C6_witness :
    processLine (rstr "<DT><A HREF=\"http://y\">Y</A>")
        [rstr "http://z"] [(rstr "http://y", rstr "https://y")] =
      PResult.ok (some (rstr "<DT><A HREF=\"https://y\">Y</A>")) := by
  have h := C6_upgrade_replacement (rstr "<DT><A HREF=\"http://y\">Y</A>")
    (rstr "http://y") (rstr "https://y") [rstr "http://z"]
    [(rstr "http://y", rstr "https://y")]
    (by decide) (by decide) (by decide) (by decide) (by decide)
  rw [h]
  decide

/-- A nonempty pattern placed literally into a string is found by rust_find,
wherever the scan starts. -/
lemma isPrefixOf_append (l r : RStr) : l.isPrefixOf (l ++ r) = true := by
  induction l with
  | nil => cases r <;> rfl
  | cons c cs ih => simp [List.isPrefixOf, ih]

/-- Worker fact for rust_contains_append: the scan succeeds on any haystack of
the shape a ++ (pat ++ b). -/
lemma find_bytes_from_isSome (pat a b : RStr) :
    ∀ ofs, (find_bytes_from pat (a ++ (pat ++ b)) ofs).isSome = true := by
  induction a with
  | nil =>
    intro ofs
    cases pat with
    | nil => cases b <;> simp [find_bytes_from, List.isPrefixOf]
    | cons c cs =>
      simp [find_bytes_from, List.isPrefixOf, isPrefixOf_append]
  | cons c cs ih =>
    intro ofs
    by_cases hp : pat.isPrefixOf (c :: (cs ++ (pat ++ b))) = true
    · simp [find_bytes_from, hp]
    · simp [find_bytes_from, hp, ih]

/-- A string of the shape a ++ pat ++ b contains pat. -/
lemma rust_contains_append (a pat b : RStr) :
    rust_contains (a ++ (pat ++ b)) pat = true := by
  simp [rust_contains, rust_find, find_bytes_from_isSome]

/-- The attempt counter of the retry loop never exceeds the remaining budget
plus one. -/
lemma check_link_go_count_le (att : Nat → ReqResult) (rem : Nat) :
    ∀ att0, (check_link_go att rem att0).2 ≤ att0 + rem + 1 := by
  induction rem with
  | zero => intro att0; simp [check_link_go]
  | succ rem ih =>
    intro att0
    cases h : att att0 with
    | resp s => simp [check_link_go, h]
    | err e =>
      by_cases hretry : (e.is_timeout || e.is_connect) = true
      · have h2 := ih (att0 + 1)
        simp only [check_link_go, h, hretry, if_true]
        omega
      · simp [check_link_go, h, hretry]

/-- When every attempt is a retryable failure, the loop uses its whole budget:
one more attempt than the remaining retries, ending Dead with the timeout or
the connect reason. -/
lemma check_link_go_all_retryable (att : Nat → ReqResult)
    (h : ∀ i, (att i).is_retryable_err = true) (rem : Nat) :
    ∀ att0, (check_link_go att rem att0).2 = att0 + rem + 1 ∧
      ((check_link_go att rem att0).1 = LinkStatus.Dead (rstr "Timeout") ∨
       (check_link_go att rem att0).1 = LinkStatus.Dead (rstr "DNS/Connection Error")) := by
  induction rem with
  | zero =>
    intro att0
    have hr := h att0
    cases ha : att att0 with
    | resp s => rw [ha] at hr; simp [ReqResult.is_retryable_err] at hr
    | err e =>
      rw [ha] at hr
      cases e with
      | timeout m =>
        simp [check_link_go, ha, exhausted_classify, ReqError.is_timeout]
      | connect m =>
        simp [check_link_go, ha, exhausted_classify, ReqError.is_timeout,
          ReqError.is_connect]
      | redirect m => simp [ReqResult.is_retryable_err, ReqError.is_timeout,
          ReqError.is_connect] at hr
      | other m => simp [ReqResult.is_retryable_err, ReqError.is_timeout,
          ReqError.is_connect] at hr
  | succ rem ih =>
    intro att0
    have hr := h att0
    cases ha : att att0 with
    | resp s => rw [ha] at hr; simp [ReqResult.is_retryable_err] at hr
    | err e =>
      rw [ha] at hr
      have hretry : (e.is_timeout || e.is_connect) = true := by
        simpa [ReqResult.is_retryable_err] using hr
      have h2 := ih (att0 + 1)
      simp only [check_link_go, ha, hretry, if_true]
      constructor
      · omega
      · exact h2.2

/-- When the first k attempts are retryable failures and attempt k yields an
HTTP response, the loop returns the response classification after exactly
k + 1 attempts (for any budget of at least k retries). -/
lemma check_link_go_resp (att : Nat → ReqResult) (s : Nat) :
    ∀ (k rem att0 : Nat), k ≤ rem →
      (∀ i, i < k → (att (att0 + i)).is_retryable_err = true) →
      att (att0 + k) = ReqResult.resp s →
      check_link_go att rem att0 = (resp_classify s, att0 + k + 1) := by
  intro k
  induction k with
  | zero =>
    intro rem att0 _ _ hresp
    rw [Nat.add_zero] at hresp
    cases rem with
    | zero => simp [check_link_go, hresp]
    | succ rem => simp [check_link_go, hresp]
  | succ k ih =>
    intro rem att0 hk hfail hresp
    cases rem with
    | zero => omega
    | succ rem =>
      have h0 := hfail 0 (by omega)
      rw [Nat.add_zero] at h0
      cases ha : att att0 with
      | resp s2 => rw [ha] at h0; simp [ReqResult.is_retryable_err] at h0
      | err e =>
        rw [ha] at h0
        have hretry : (e.is_timeout || e.is_connect) = true := by
          simpa [ReqResult.is_retryable_err] using h0
        have h2 := ih rem (att0 + 1) (by omega)
          (fun i hi => by
            have := hfail (i + 1) (by omega)
            rwa [show att0 + (i + 1) = att0 + 1 + i by omega] at this)
          (by rwa [show att0 + 1 + k = att0 + (k + 1) by omega])
        simp only [check_link_go, ha, hretry, if_true]
        rw [h2]
        congr 1
        omega

/-- C5: for every probe that receives an HTTP response (on its first attempt
or after any run of retried transport failures): a success status (2xx) yields
Ok; 404 and 410 yield Dead whose reason contains the status code and the text
Not Found/Gone; every other status (401, 403, 429, 500, 503, ...) yields
Ok. -/
theorem C5_status_classification (net : RStr → Nat → ReqResult) (url : RStr)
    (r k s : Nat)
    (hweb : (rstr "http").isPrefixOf url = true)
    (hk : k ≤ r)
    (hfail : ∀ i, i < k → ((net url) (0 + i)).is_retryable_err = true)
    (hresp : net url (0 + k) = ReqResult.resp s) :
    ((200 ≤ s ∧ s ≤ 299) → (check_link net url r).1 = LinkStatus.Ok) ∧
    ((s = 404 ∨ s = 410) →
      (check_link net url r).1 =
        LinkStatus.Dead (statusDisplay s ++ rstr " Not Found/Gone") ∧
      rust_contains (statusDisplay s ++ rstr " Not Found/Gone")
        (rstr (toString s)) = true ∧
      rust_contains (statusDisplay s ++ rstr " Not Found/Gone")
        (rstr "Not Found/Gone") = true) ∧
    (¬ (200 ≤ s ∧ s ≤ 299) → s ≠ 404 → s ≠ 410 →
      (check_link net url r).1 = LinkStatus.Ok) := by
  have hgo := check_link_go_resp (net url) s k r 0 hk hfail hresp
  have hcl : check_link net url r = (resp_classify s, 0 + k + 1) := by
    simp [check_link, hweb, hgo]
  refine ⟨?_, ?_, ?_⟩
  · intro hs
    rw [hcl]
    simp [resp_classify, hs]
  · intro hs
    refine ⟨?_, ?_, ?_⟩
    · rw [hcl]
      have hns : ¬ (200 ≤ s ∧ s ≤ 299) := by omega
      simp [resp_classify, hns, hs]
    · have := rust_contains_append [] (rstr (toString s))
        ((if s = 404 then rstr " Not Found"
          else if s = 410 then rstr " Gone" else rstr "") ++ rstr " Not Found/Gone")
      simpa [statusDisplay, List.append_assoc] using this
    · have hsp : rstr " Not Found/Gone" = ' ' :: rstr "Not Found/Gone" := by decide
      have := rust_contains_append (statusDisplay s ++ [' '])
        (rstr "Not Found/Gone") []
      simpa [hsp, List.append_assoc] using this
  · intro h1 h2 h3
    rw [hcl]
    simp [resp_classify, h1, h2, h3]

/-- C5 witness: a probe answered 404 on its first attempt, with the default
retry budget. -/
theorem C5_witness :
    (check_link (constNet (ReqResult.resp 404)) (rstr "http://x") 3).1 =
      LinkStatus.Dead (statusDisplay 404 ++ rstr " Not Found/Gone") ∧
    rust_contains (statusDisplay 404 ++ rstr " Not Found/Gone")
      (rstr (toString 404)) = true ∧
    rust_contains (statusDisplay 404 ++ rstr " Not Found/Gone")
      (rstr "Not Found/Gone") = true :=
  (C5_status_classification (constNet (ReqResult.resp 404)) (rstr "http://x")
    3 0 404 (by decide) (by omega) (fun i hi => by omega) rfl).2.1 (Or.inl rfl)

/-- C7 counterexample: a URL whose scheme is httpx - neither http nor https -
still starts with the literal prefix "http", so the code does probe it: with a
connect-failing network and a zero retry budget it returns Dead after one
attempt, not Ok with zero attempts as the claim requires. -/
theorem C7_scheme_counterexample :
    (rstr "http://").isPrefixOf (rstr "httpx://example.com") = false ∧
    (rstr "https://").isPrefixOf (rstr "httpx://example.com") = false ∧
    check_link (constNet (ReqResult.err (ReqError.connect (rstr "refused"))))
      (rstr "httpx://example.com") 0 =
      (LinkStatus.Dead (rstr "DNS/Connection Error"), 1) ∧
    (LinkStatus.Dead (rstr "DNS/Connection Error"), 1) ≠
      ((LinkStatus.Ok : LinkStatus), (0 : Nat)) := by
  decide

/-- C7 (amended): every URL that does not start with the literal prefix
"http" (javascript:, file:, ftp:, ...) yields Ok immediately with zero
network attempts, for every network and every retry budget; a URL that starts
with "http" is probed even when its scheme is neither http nor https. -/
theorem C7_non_http_ok (net : RStr → Nat → ReqResult) (url : RStr) (r : Nat)
    (h : (rstr "http").isPrefixOf url = false) :
    check_link net url r = (LinkStatus.Ok, 0) := by
  simp [check_link, h]

/-- C7 witness: a javascript link is Ok with zero attempts even on a network
that fails every request. -/
theorem C7_witness :
    check_link (constNet (ReqResult.err (ReqError.connect (rstr "refused"))))
      (rstr "javascript:void(0)") 3 = (LinkStatus.Ok, 0) :=
  C7_non_http_ok (constNet (ReqResult.err (ReqError.connect (rstr "refused"))))
    (rstr "javascript:void(0)") 3 (by decide)

/-- C8: the probe always terminates after at most maxRetries + 1 attempts
(the model is a total function, so termination is by construction); and when
every attempt fails with a retryable transport failure - a connect or timeout
failure - exactly maxRetries + 1 attempts are performed and the result is
Dead with the exhausted-retries reason. -/
theorem C8_attempt_bound :
    (∀ (net : RStr → Nat → ReqResult) (url : RStr) (r : Nat),
      (check_link net url r).2 ≤ r + 1) ∧
    (∀ (net : RStr → Nat → ReqResult) (url : RStr) (r : Nat),
      (rstr "http").isPrefixOf url = true →
      (∀ i, ((net url) i).is_retryable_err = true) →
      (check_link net url r).2 = r + 1 ∧
      ((check_link net url r).1 = LinkStatus.Dead (rstr "Timeout") ∨
       (check_link net url r).1 = LinkStatus.Dead (rstr "DNS/Connection Error"))) := by
  constructor
  · intro net url r
    by_cases hweb : (rstr "http").isPrefixOf url = true
    · have := check_link_go_count_le (net url) r 0
      simpa [check_link, hweb] using this
    · simp at hweb
      simp [check_link, hweb]
  · intro net url r hweb hall
    have := check_link_go_all_retryable (net url) hall r 0
    simpa [check_link, hweb] using this

/-- C8 witness: a connect-failure URL with retries = 2 performs exactly 3
attempts and reports the connection error. -/
theorem C8_witness :
    (check_link (constNet (ReqResult.err (ReqError.connect (rstr "refused"))))
      (rstr "http://a") 2).2 = 2 + 1 ∧
    ((check_link (constNet (ReqResult.err (ReqError.connect (rstr "refused"))))
      (rstr "http://a") 2).1 = LinkStatus.Dead (rstr "Timeout") ∨
     (check_link (constNet (ReqResult.err (ReqError.connect (rstr "refused"))))
      (rstr "http://a") 2).1 = LinkStatus.Dead (rstr "DNS/Connection Error")) :=
  C8_attempt_bound.2 (constNet (ReqResult.err (ReqError.connect (rstr "refused"))))
    (rstr "http://a") 2 (by decide) (fun i => rfl)

/-- C4 counterexample: with the default retry budget (3), a first-attempt
redirect-cap failure is indeed not retried (one attempt), but its reason is
the RAW reqwest error text, not the exact string Redirect Loop: the
is_redirect classification arm of the source sits inside the retries-exhausted
branch, which a first-attempt failure with remaining budget never reaches. -/
theorem C4_redirect_raw_reason :
    check_link (constNet (ReqResult.err (ReqError.redirect
        (rstr "too many redirects")))) (rstr "http://a") 3 =
      (LinkStatus.Dead (rstr "too many redirects"), 1) ∧
    (LinkStatus.Dead (rstr "too many redirects") : LinkStatus) ≠
      LinkStatus.Dead (rstr "Redirect Loop") := by
  decide

/-- C4 (amended): a redirect-cap failure terminates the probe immediately with
no retry (exactly one attempt) for every retry budget; its reason is the exact
string Redirect Loop only when the budget is already exhausted at that attempt
(maxRetries = 0 for a first-attempt failure), and the raw error text
otherwise. -/
theorem C4_redirect_no_retry (net : RStr → Nat → ReqResult) (url : RStr)
    (r : Nat) (msg : RStr)
    (hweb : (rstr "http").isPrefixOf url = true)
    (h0 : net url 0 = ReqResult.err (ReqError.redirect msg)) :
    check_link net url r =
      ((if r = 0 then LinkStatus.Dead (rstr "Redirect Loop")
        else LinkStatus.Dead msg), 1) := by
  cases r with
  | zero =>
    simp [check_link, hweb, check_link_go, h0, exhausted_classify,
      ReqError.is_timeout, ReqError.is_connect, ReqError.is_redirect]
  | succ n =>
    simp [check_link, hweb, check_link_go, h0, ReqError.is_timeout,
      ReqError.is_connect, ReqError.to_string]

/-- C4 witness: with a zero budget the redirect-cap failure does get the
Redirect Loop label, still after exactly one attempt. -/
theorem C4_witness :
    check_link (constNet (ReqResult.err (ReqError.redirect (rstr "m"))))
      (rstr "http://a") 0 = (LinkStatus.Dead (rstr "Redirect Loop"), 1) := by
  have h := C4_redirect_no_retry
    (constNet (ReqResult.err (ReqError.redirect (rstr "m"))))
    (rstr "http://a") 0 (rstr "m") (by decide) rfl
  simpa using h

/-- C3 counterexample: the https substitution is Rust str::replace, which
replaces EVERY occurrence of http:// in the URL, not only the scheme: a dead
http URL carrying another http:// inside its query is upgraded to a URL whose
query was rewritten too. -/
theorem C3_not_scheme_only :
    check_link_smart
      (fun u _ => if u = rstr "http://a?u=http://b"
        then ReqResult.err (ReqError.connect (rstr "refused"))
        else ReqResult.resp 200)
      (rstr "http://a?u=http://b") 0 =
      LinkStatus.Upgraded (rstr "https://a?u=https://b") ∧
    LinkStatus.Upgraded (rstr "https://a?u=https://b") ≠
      LinkStatus.Upgraded (rstr "https://a?u=http://b") := by
  decide

/-- C3 (amended): the smart checker first probes the original URL; if that
result is Dead and the URL starts with http://, it probes the URL with every
occurrence of http:// replaced by https:// (only the scheme, whenever http://
occurs in the URL exactly once) under the same retry budget; if the second
probe is Ok the result is Upgraded with the rewritten URL, and in every other
case - second probe not Ok, first result not Dead, or URL not starting with
http:// - the first result is returned unchanged. -/
theorem C3_smart_upgrade (net : RStr → Nat → ReqResult) (url : RStr) (r : Nat) :
    (∀ reason, (check_link net url r).1 = LinkStatus.Dead reason →
      (((rstr "http://").isPrefixOf url = true →
        (((check_link net (rust_replace url (rstr "http://") (rstr "https://")) r).1 =
            LinkStatus.Ok →
          check_link_smart net url r =
            LinkStatus.Upgraded (rust_replace url (rstr "http://") (rstr "https://"))) ∧
         ((check_link net (rust_replace url (rstr "http://") (rstr "https://")) r).1 ≠
            LinkStatus.Ok →
          check_link_smart net url r = LinkStatus.Dead reason))) ∧
       ((rstr "http://").isPrefixOf url = false →
        check_link_smart net url r = LinkStatus.Dead reason))) ∧
    ((∀ reason, (check_link net url r).1 ≠ LinkStatus.Dead reason) →
      check_link_smart net url r = (check_link net url r).1) := by
  constructor
  · intro reason hdead
    constructor
    · intro hpre
      constructor
      · intro hok
        simp [check_link_smart, hdead, hpre, hok]
      · intro hnok
        cases h2 : (check_link net
            (rust_replace url (rstr "http://") (rstr "https://")) r).1 with
        | Ok => exact absurd h2 hnok
        | Dead r2 => simp [check_link_smart, hdead, hpre, h2]
        | Upgraded u2 => simp [check_link_smart, hdead, hpre, h2]
    · intro hpre
      simp [check_link_smart, hdead, hpre]
  · intro hnot
    cases hs : (check_link net url r).1 with
    | Ok => simp [check_link_smart, hs]
    | Dead r2 => exact absurd hs (hnot r2)
    | Upgraded u2 => simp [check_link_smart, hs]

/-- C3 witness: a dead http URL whose https counterpart answers 204 is
Upgraded to the https URL. -/
theorem C3_witness :
    check_link_smart
      (fun u _ => if u = rstr "http://w"
        then ReqResult.err (ReqError.connect (rstr "refused"))
        else ReqResult.resp 204)
      (rstr "http://w") 1 = LinkStatus.Upgraded (rstr "https://w") := by
  have h := ((C3_smart_upgrade
      (fun u _ => if u = rstr "http://w"
        then ReqResult.err (ReqError.connect (rstr "refused"))
        else ReqResult.resp 204)
      (rstr "http://w") 1).1
    (rstr "DNS/Connection Error") (by decide)).1 (by decide)
  have h2 := h.1 (by decide)
  simpa using h2

/-- C9: with ignoreLocalAddresses set, an empty folder path and no folder
exclusions, should_skip is true for the hosts 127.0.0.1, 192.168.1.1,
10.0.0.1, 172.16.0.1 and 172.31.255.255, false for 172.32.0.1, false for a
URL that fails to parse (the local-address basis never applies), and false
for every public host - any host other than localhost and 127.0.0.1 that does
not start with 192.168., 10. or 172. and does not end with .local. -/
theorem C9_local_address_skip :
    should_skip [] true (some (some (rstr "127.0.0.1"))) [] = true ∧
    should_skip [] true (some (some (rstr "192.168.1.1"))) [] = true ∧
    should_skip [] true (some (some (rstr "10.0.0.1"))) [] = true ∧
    should_skip [] true (some (some (rstr "172.16.0.1"))) [] = true ∧
    should_skip [] true (some (some (rstr "172.31.255.255"))) [] = true ∧
    should_skip [] true (some (some (rstr "172.32.0.1"))) [] = false ∧
    should_skip [] true none [] = false ∧
    (∀ host : RStr,
      host ≠ rstr "localhost" → host ≠ rstr "127.0.0.1" →
      (rstr "192.168.").isPrefixOf host = false →
      (rstr "10.").isPrefixOf host = false →
      (rstr "172.").isPrefixOf host = false →
      (rstr ".local").isSuffixOf host = false →
      should_skip [] true (some (some host)) [] = false) := by
  refine ⟨by decide, by decide, by decide, by decide, by decide, by decide,
    by decide, ?_⟩
  intro host h1 h2 h3 h4 h5 h6
  have b1 : (host == rstr "localhost") = false := by simpa using h1
  have b2 : (host == rstr "127.0.0.1") = false := by simpa using h2
  simp [should_skip, host_is_local, b1, b2, h3, h4, h5, h6]

/-- C9 witness: a public host is not skipped. -/
theorem C9_witness :
    should_skip [] true (some (some (rstr "example.com"))) [] = false :=
  C9_local_address_skip.2.2.2.2.2.2.2 (rstr "example.com")
    (by decide) (by decide) (by decide) (by decide) (by decide) (by decide)

end BookmarkCleaner
